import Mathlib

/-!
Verification of `novelwriter/formats/toqdoc.py` (`ToQTextDocument`).

A shallow embedding of the QTextDocument converter: block types, inline
format spans, block/character formats, the document model (a list of
paragraphs, each a block format plus a list of styled text runs, with the
cursor always at the end), and the converter state.  Qt float quantities
(margins, point sizes) are modelled as rationals; Qt colors as an
inductive type; Python dicts with insertion order as association lists.
-/

namespace ToQDoc

/-- Block types (`BlockTyp` from `novelwriter/formats/shared.py`, as used
by `toqdoc.py`): Title, Head1–4, Text, Separator, Skip, Comment, Keyword. -/
inductive BlockTyp where
  | TITLE | HEAD1 | HEAD2 | HEAD3 | HEAD4
  | TEXT | SEP | SKIP | COMMENT | KEYWORD
deriving DecidableEq, Repr

/-- Inline format transition tags (`TextFmt` from
`novelwriter/formats/shared.py`, as matched in `_insertFragments`). -/
inductive TextFmt where
  | B_B | B_E | I_B | I_E | D_B | D_E | U_B | U_E | M_B | M_E
  | SUP_B | SUP_E | SUB_B | SUB_E | COL_B | COL_E
  | ANM_B | ANM_E | HRF_B | HRF_E | FNOTE
deriving DecidableEq, Repr

/-- A Qt color value: `transparent` models `QtTransparent`, `named`
models any other concrete color (theme or class colors). -/
inductive QColor where
  | transparent
  | named (s : String)
deriving DecidableEq, Repr

/-- Font weight as set by `setFontWeight` (`self._bold` / `self._normal`). -/
inductive Weight where
  | normal | bold
deriving DecidableEq, Repr

/-- Vertical alignment (`QtVAlignNormal` / `QtVAlignSuper` / `QtVAlignSub`). -/
inductive VAlign where
  | normal | super | sub
deriving DecidableEq, Repr

/-- Block alignment; `unset` is the default of a fresh `QTextBlockFormat`,
`absolute` models `QtAlignAbsolute` set by `initDocument`. -/
inductive Align where
  | unset | absolute | left | right | center | justify
deriving DecidableEq, Repr

/-- Page break policy (`setPageBreakPolicy`); a single field, so a later
`PBA` write overrides an earlier `PBB` write. -/
inductive PageBreak where
  | auto | before | after
deriving DecidableEq, Repr

/-- Model of `QTextCharFormat`, restricted to the properties this converter sets. -/
structure CharFormat where
  fontWeight : Weight := .normal
  italic : Bool := false
  strikeOut : Bool := false
  underline : Bool := false
  background : QColor := .transparent
  foreground : QColor := .named ""
  valign : VAlign := .normal
  anchor : Bool := false
  anchorNames : List String := []
  anchorHref : String := ""
  fontPointSize : Option ℚ := none
deriving DecidableEq, Repr

/-- Model of `QTextBlockFormat`, restricted to the properties this converter sets. -/
structure BlockFormat where
  topMargin : ℚ := 0
  bottomMargin : ℚ := 0
  leftMargin : ℚ := 0
  rightMargin : ℚ := 0
  textIndent : ℚ := 0
  alignment : Align := .unset
  lineHeightPct : ℚ := 0
  pageBreak : PageBreak := .auto
deriving DecidableEq, Repr

/-- One inline format span `(pos, fmt, data)` of a block's `tFormat` list. -/
structure Span where
  pos : Nat
  fmt : TextFmt
  data : String
deriving DecidableEq, Repr

/-- Block style flags (`BlockFmt` bitset from
`novelwriter/formats/shared.py`), one Bool per flag tested in `doConvert`. -/
structure BlockStyle where
  left : Bool := false
  right : Bool := false
  centre : Bool := false
  justify : Bool := false
  pbb : Bool := false
  pba : Bool := false
  zBtmMrg : Bool := false
  zTopMrg : Bool := false
  indL : Bool := false
  indR : Bool := false
  indT : Bool := false
deriving DecidableEq, Repr

/-- One tokenizer block `(tType, nHead, tText, tFormat, tStyle)` of
`self._blocks`.  Text is a character list; `nHead` may be `-1`. -/
structure ContentBlock where
  tType : BlockTyp
  nHead : Int
  tText : List Char
  tFormat : List Span
  tStyle : Option BlockStyle
deriving DecidableEq, Repr

/-- A styled text run: a fragment of text inserted with one character
format via `cursor.insertText`. -/
abbrev Run := List Char × CharFormat

/-- One output paragraph: its block format and its runs in order. -/
structure Para where
  fmt : BlockFormat
  runs : List Run
deriving DecidableEq, Repr

/-- The output `QTextDocument`: its paragraphs in order, the cursor kept
at the end.  A `QTextDocument` always holds at least one block. -/
abbrev Doc := List Para

/-- Footnote content as stored in the tokenizer's `_footnotes` map:
a text plus its format spans (`T_Formats`). -/
abbrev FootnoteContent := List Char × List Span

/-- Read-only collaborator data: the tokenizer/project/theme/config
fields of the converter that `toqdoc.py` reads but never writes. -/
structure Env where
  /-- `QFontMetricsF(self._textFont).ascent()`: one em in pixels. -/
  mPx : ℚ
  /-- `self._textFont.pointSizeF()`. -/
  fPt : ℚ
  marginTitle : ℚ × ℚ
  marginHead1 : ℚ × ℚ
  marginHead2 : ℚ × ℚ
  marginHead3 : ℚ × ℚ
  marginHead4 : ℚ × ℚ
  marginText : ℚ × ℚ
  marginMeta : ℚ × ℚ
  marginSep : ℚ × ℚ
  firstWidth : ℚ
  lineHeight : ℚ
  scaleHeads : Bool
  boldHeads : Bool
  colorHeads : Bool
  /-- `nwStyles.H_SIZES` lookup, `.get(i, 1.0)` semantics via `Option`. -/
  hSizes : Nat → Option ℚ
  themeText : QColor
  themeHead : QColor
  themeCode : QColor
  themeHighlight : QColor
  /-- `self._classes`: class name to color mapping. -/
  classes : String → Option QColor
  /-- `self._footnotes`: footnote key to stored content (association list). -/
  footnotes : List (String × FootnoteContent)
  /-- `self._handle`: the owning document's identifier. -/
  handle : String
  /-- `self._localLookup("Footnotes")`: the localized section label. -/
  localFootnotes : List Char
  /-- Modelled from the spec: `nwHeadFmt.BR`, the heading line-break
  marker (its concrete value lives in `novelwriter/constants.py`, which
  is outside the excerpt); the spec only says headings have "line-break
  markers converted to hard line breaks". -/
  headBR : List Char

/-- Mutable converter state: the fields of `ToQTextDocument` written by
`__init__`, `initDocument`, `doConvert` and `appendFootnotes`. -/
structure ConvState where
  document : Doc
  /-- `self._usedNotes`: key to usage index, insertion-ordered dict. -/
  usedNotes : List (String × Nat)
  init : Bool
  mHead : BlockTyp → Option (ℚ × ℚ)
  sHead : BlockTyp → Option ℚ
  mText : ℚ × ℚ
  mMeta : ℚ × ℚ
  mSep : ℚ × ℚ
  mIndent : ℚ
  tIndent : ℚ
  blockFmt : BlockFormat
  charFmt : CharFormat

/-- Constant `nwUnicode.U_LSEP`: the unicode line separator used by
`_insertFragments` to keep soft line breaks inside one paragraph. -/
def uLSEP : Char := '\u2028'

/-- Constant `nwUnicode.U_NBSP`: the non-breaking space inserted for `SKIP` blocks. -/
def uNBSP : Char := '\u00A0'

/-- Decimal digit character, `d < 10`. -/
def digitChar (d : Nat) : Char :=
  if d = 0 then '0' else if d = 1 then '1' else if d = 2 then '2'
  else if d = 3 then '3' else if d = 4 then '4' else if d = 5 then '5'
  else if d = 6 then '6' else if d = 7 then '7' else if d = 8 then '8'
  else '9'

/-- Decimal digits of `n`, with structural recursion on a fuel bound
(`fuel > number of digits` always holds at the call sites). -/
def natStrAux : Nat → Nat → List Char
  | 0, _ => []
  | fuel + 1, n =>
    if n < 10 then [digitChar n]
    else natStrAux fuel (n / 10) ++ [digitChar (n % 10)]

/-- Python `str(n)` for a natural number: its decimal digits. -/
def natStr (n : Nat) : List Char := natStrAux (n + 1) n

/-- Python `str(n)` as a `String`. -/
def natString (n : Nat) : String := String.mk (natStr n)

/-- Apply a function to the last paragraph of the document (the cursor is
always at the end). -/
def modifyLast (doc : Doc) (g : Para → Para) : Doc :=
  match doc with
  | [] => []
  | [p] => [g p]
  | p :: q :: rest => p :: modifyLast (q :: rest) g

/-- Block format of the paragraph the cursor is in (the last one). -/
def lastFmt (doc : Doc) : BlockFormat :=
  (doc.getLast?.map Para.fmt).getD {}

/-- Append one styled run to the current (last) paragraph; inserting the
empty string is a no-op, as for `QTextCursor.insertText`. -/
def appendRun (doc : Doc) (s : List Char) (f : CharFormat) : Doc :=
  if s.isEmpty then doc
  else modifyLast doc (fun p => ⟨p.fmt, p.runs ++ [(s, f)]⟩)

/-- Split a character list at newline characters (the pieces, in order,
with the separators removed); the result is always non-empty. -/
def splitNl : List Char → List (List Char)
  | [] => [[]]
  | c :: cs =>
    if c = '\n' then [] :: splitNl cs
    else
      match splitNl cs with
      | [] => [[c]]
      | p :: ps => (c :: p) :: ps

/-- Model of `cursor.insertText(s, f)`: newline characters are converted to
paragraph breaks (the new paragraph keeps the current block format);
the pieces between them become runs of the current paragraph. -/
def insertText (doc : Doc) (s : List Char) (f : CharFormat) : Doc :=
  if s.isEmpty then doc
  else
    match splitNl s with
    | [] => doc
    | first :: rest =>
      rest.foldl (fun d part => appendRun (d ++ [⟨lastFmt d, []⟩]) part f)
        (appendRun doc first f)

/-- Test `cursor.position() == 0` for a cursor moved to the end: holds exactly
when the document is a single empty block. -/
def atStart (doc : Doc) : Bool :=
  match doc with
  | [p] => p.runs.isEmpty
  | _ => false

/-- The `newBlock` helper from `toqdoc.py`: append a new paragraph with the
given format, or set the format of the initial empty paragraph when the
cursor is still at position 0. -/
def newBlock (doc : Doc) (bFmt : BlockFormat) : Doc :=
  if atStart doc then modifyLast doc (fun p => ⟨bFmt, p.runs⟩)
  else doc ++ [⟨bFmt, []⟩]

/-- Number of entries of an insertion-ordered dict (`len(d)`). -/
def dictLen (d : List (String × Nat)) : Nat := d.length

/-- Dict lookup (`d.get(k)` / `d[k]`). -/
def dictGet (d : List (String × Nat)) (k : String) : Option Nat :=
  (d.find? (fun p => p.1 = k)).map Prod.snd

/-- Dict assignment `d[k] = v`: overwrite in place if the key exists
(keeping its position, as a Python dict does), else append. -/
def dictSet (d : List (String × Nat)) (k : String) (v : Nat) :
    List (String × Nat) :=
  if d.any (fun p => p.1 = k) then
    d.map (fun p => if p.1 = k then (k, v) else p)
  else d ++ [(k, v)]

/-- Footnote store lookup (`self._footnotes.get(key)`). -/
def storeGet (store : List (String × FootnoteContent)) (k : String) :
    Option FootnoteContent :=
  (store.find? (fun p => p.1 = k)).map Prod.snd

/-- Footnote store membership (`data in self._footnotes`). -/
def storeMem (store : List (String × FootnoteContent)) (k : String) : Bool :=
  store.any (fun p => p.1 = k)

/-- Python slice `temp[start:pos]` on a character list. -/
def slice (s : List Char) (a b : Nat) : List Char :=
  (s.take b).drop a

/-- Python `text.replace("\n", nwUnicode.U_LSEP)` at the top of
`_insertFragments`. -/
def lsepText (text : List Char) : List Char :=
  text.map (fun c => if c = '\n' then uLSEP else c)

/-- Loop state of `_insertFragments`: the document, the used-notes dict,
the running character format `cFmt`, and the cursor `start` position. -/
structure FragState where
  doc : Doc
  notes : List (String × Nat)
  cFmt : CharFormat
  start : Nat

/-- The "construct next format" branch of `_insertFragments` for all
tags except `FNOTE` (which inserts text instead of mutating `cFmt`). -/
def applySpanFmt (env : Env) (cFmt : CharFormat) (fmt : TextFmt)
    (data : String) : CharFormat :=
  match fmt with
  | .B_B => { cFmt with fontWeight := .bold }
  | .B_E => { cFmt with fontWeight := .normal }
  | .I_B => { cFmt with italic := true }
  | .I_E => { cFmt with italic := false }
  | .D_B => { cFmt with strikeOut := true }
  | .D_E => { cFmt with strikeOut := false }
  | .U_B => { cFmt with underline := true }
  | .U_E => { cFmt with underline := false }
  | .M_B => { cFmt with background := env.themeHighlight }
  | .M_E => { cFmt with background := .transparent }
  | .SUP_B => { cFmt with valign := .super }
  | .SUP_E => { cFmt with valign := .normal }
  | .SUB_B => { cFmt with valign := .sub }
  | .SUB_E => { cFmt with valign := .normal }
  | .COL_B =>
    match env.classes data with
    | some color => { cFmt with foreground := color }
    | none => cFmt
  | .COL_E => { cFmt with foreground := env.themeText }
  | .ANM_B => { cFmt with anchor := true, anchorNames := [data] }
  | .ANM_E => { cFmt with anchor := false }
  | .HRF_B => { cFmt with underline := true, anchor := true, anchorHref := data }
  | .HRF_E => { cFmt with underline := false, anchor := false }
  | .FNOTE => cFmt

/-- The `TextFmt.FNOTE` branch of `_insertFragments`: build `xFmt` from
the instance base char format, and if the key is in the footnote store,
take `index = len(self._usedNotes) + 1`, write it into the dict, and
insert `[<index>]` as a superscript link; otherwise insert `[ERR]` with
the running format. -/
def fnoteInsert (env : Env) (baseChar : CharFormat) (fs : FragState)
    (data : String) : FragState :=
  let xFmt : CharFormat := { baseChar with foreground := env.themeCode, valign := .super }
  if storeMem env.footnotes data then
    let index := dictLen fs.notes + 1
    let notes := dictSet fs.notes data index
    let xFmt := { xFmt with
      anchor := true,
      anchorHref := "#footnote_" ++ natString index,
      underline := true }
    { fs with
      doc := insertText fs.doc ('[' :: (natStr index ++ [']'])) xFmt,
      notes := notes }
  else
    { fs with doc := insertText fs.doc "[ERR]".toList fs.cFmt }

/-- One iteration of the `for pos, fmt, data in tFmt` loop of
`_insertFragments`: insert the buffered slice with the previous format,
then apply the tag, then move `start` to `pos`. -/
def insertFragStep (env : Env) (baseChar : CharFormat) (temp : List Char)
    (fs : FragState) (sp : Span) : FragState :=
  let fs1 := { fs with doc := insertText fs.doc (slice temp fs.start sp.pos) fs.cFmt }
  let fs2 :=
    if sp.fmt = .FNOTE then fnoteInsert env baseChar fs1 sp.data
    else { fs1 with cFmt := applySpanFmt env fs1.cFmt sp.fmt sp.data }
  { fs2 with start := sp.pos }

/-- Method `_insertFragments(text, tFmt, cursor, dFmt)`: newlines become the
line separator, then the span loop runs, then the rest of the buffer is
inserted with the final running format.  `baseChar` is the instance's
`self._charFmt`, read by the `FNOTE` branch.  Returns the document and
the updated `_usedNotes` dict. -/
def insertFragments (env : Env) (baseChar : CharFormat) (doc : Doc)
    (notes : List (String × Nat)) (text : List Char) (tFmt : List Span)
    (dFmt : CharFormat) : Doc × List (String × Nat) :=
  let temp := lsepText text
  let fs := tFmt.foldl (insertFragStep env baseChar temp)
    ⟨doc, notes, dFmt, 0⟩
  (insertText fs.doc (temp.drop fs.start) fs.cFmt, fs.notes)

/-- Python `f"{n:04d}"` for a non-negative value: decimal digits,
left-padded with zeros to a minimum width of 4. -/
def pad4 (n : Nat) : List Char :=
  List.replicate (4 - (natStr n).length) '0' ++ natStr n

/-- Method `_genHeadStyle(hType, nHead, rFmt)`: heading margins from `_mHead`
(defaulting to `(0, 0)`), heading color/weight/size on a copy of the
base char format, and an anchor `<handle>:T<nHead:04d>` when `nHead ≥ 0`.
The method also stores a `_cTitle` format on the instance, which nothing
in this module ever reads, so it is not part of the modelled state. -/
def genHeadStyle (env : Env) (st : ConvState) (hType : BlockTyp) (nHead : Int)
    (rFmt : BlockFormat) : BlockFormat × CharFormat :=
  let m := (st.mHead hType).getD (0, 0)
  let bFmt := { rFmt with topMargin := m.1, bottomMargin := m.2 }
  let hCol := env.colorHeads && decide (hType ≠ BlockTyp.TITLE)
  let cFmt := { st.charFmt with
    foreground := if hCol then env.themeHead else env.themeText,
    fontWeight := if env.boldHeads then Weight.bold else Weight.normal,
    fontPointSize := some ((st.sHead hType).getD 1) }
  let cFmt :=
    if nHead ≥ 0 then
      { cFmt with
        anchorNames := [env.handle ++ ":T" ++ String.mk (pad4 nHead.toNat)],
        anchor := true }
    else cFmt
  (bFmt, cFmt)

/-- Modelled from the spec: membership in `Tokenizer.L_HEADINGS`
(the `Tokenizer` base class is outside the excerpt); §4.2 names the
heading types as Title and Head1–4. -/
def isHeading (t : BlockTyp) : Bool :=
  match t with
  | .TITLE | .HEAD1 | .HEAD2 | .HEAD3 | .HEAD4 => true
  | _ => false

/-- Helper for `replaceSub`, structurally recursive on a fuel bound:
every recursive call shortens the list by at least one character and the
fuel by exactly one, so fuel `s.length` never runs out for a non-empty
pattern. -/
def replaceSubAux (pat repl : List Char) : Nat → List Char → List Char
  | 0, s => s
  | _ + 1, [] => []
  | fuel + 1, c :: rest =>
    if pat ≠ [] ∧ (c :: rest).take pat.length = pat then
      repl ++ replaceSubAux pat repl fuel ((c :: rest).drop pat.length)
    else c :: replaceSubAux pat repl fuel rest

/-- Python `s.replace(pat, repl)` on character lists (used for the
heading line-break marker); `pat = []` is never passed. -/
def replaceSub (pat repl s : List Char) : List Char :=
  replaceSubAux pat repl s.length s

/-- Constructor `__init__`: a fresh `QTextDocument` holds one empty block; the
used-notes dict is empty and `_init` is false.  The style fields do not
exist on the Python instance before `initDocument` runs (and `doConvert`
guards on `_init`), so they carry unread placeholder values here. -/
def initState : ConvState where
  document := [⟨{}, []⟩]
  usedNotes := []
  init := false
  mHead := fun _ => none
  sHead := fun _ => none
  mText := (0, 0)
  mMeta := (0, 0)
  mSep := (0, 0)
  mIndent := 0
  tIndent := 0
  blockFmt := {}
  charFmt := {}

/-- Method `initDocument()`: clear the document (back to one empty default
block) and compute the scaled margins, heading sizes, and the base
block/char formats from the font metrics and configuration. -/
def initDocument (env : Env) (st : ConvState) : ConvState :=
  let mPx := env.mPx
  let fPt := env.fPt
  { st with
    document := [⟨{}, []⟩],
    mHead := fun t =>
      match t with
      | .TITLE => some (mPx * env.marginTitle.1, mPx * env.marginTitle.2)
      | .HEAD1 => some (mPx * env.marginHead1.1, mPx * env.marginHead1.2)
      | .HEAD2 => some (mPx * env.marginHead2.1, mPx * env.marginHead2.2)
      | .HEAD3 => some (mPx * env.marginHead3.1, mPx * env.marginHead3.2)
      | .HEAD4 => some (mPx * env.marginHead4.1, mPx * env.marginHead4.2)
      | _ => none,
    sHead := fun t =>
      match t with
      | .TITLE => some (if env.scaleHeads then (env.hSizes 0).getD 1 * fPt else fPt)
      | .HEAD1 => some (if env.scaleHeads then (env.hSizes 1).getD 1 * fPt else fPt)
      | .HEAD2 => some (if env.scaleHeads then (env.hSizes 2).getD 1 * fPt else fPt)
      | .HEAD3 => some (if env.scaleHeads then (env.hSizes 3).getD 1 * fPt else fPt)
      | .HEAD4 => some (if env.scaleHeads then (env.hSizes 4).getD 1 * fPt else fPt)
      | _ => none,
    mText := (mPx * env.marginText.1, mPx * env.marginText.2),
    mMeta := (mPx * env.marginMeta.1, mPx * env.marginMeta.2),
    mSep := (mPx * env.marginSep.1, mPx * env.marginSep.2),
    mIndent := mPx * 2,
    tIndent := mPx * env.firstWidth,
    blockFmt := { topMargin := mPx * env.marginText.1,
                  bottomMargin := mPx * env.marginText.2,
                  alignment := .absolute,
                  lineHeightPct := 100 * env.lineHeight },
    charFmt := { background := .transparent, foreground := env.themeText },
    init := true }

/-- The margin-selection step of `doConvert`'s loop: start from a copy
of the base block format; meta margins for Comment/Keyword, separator
margins for Separator, base text margins otherwise. -/
def selectMargins (st : ConvState) (tType : BlockTyp) : BlockFormat :=
  let bFmt := st.blockFmt
  if tType = .COMMENT ∨ tType = .KEYWORD then
    { bFmt with topMargin := st.mMeta.1, bottomMargin := st.mMeta.2 }
  else if tType = .SEP then
    { bFmt with topMargin := st.mSep.1, bottomMargin := st.mSep.2 }
  else bFmt

/-- The `if tStyle is not None` step of `doConvert`'s loop: alignment
(first matching flag wins), page break policy, zero top/bottom margins,
and indents. -/
def applyStyleFlags (st : ConvState) (bFmt : BlockFormat)
    (tStyle : Option BlockStyle) : BlockFormat :=
  match tStyle with
  | none => bFmt
  | some s =>
    let bFmt :=
      if s.left then { bFmt with alignment := .left }
      else if s.right then { bFmt with alignment := .right }
      else if s.centre then { bFmt with alignment := .center }
      else if s.justify then { bFmt with alignment := .justify }
      else bFmt
    let bFmt := if s.pbb then { bFmt with pageBreak := .before } else bFmt
    let bFmt := if s.pba then { bFmt with pageBreak := .after } else bFmt
    let bFmt := if s.zBtmMrg then { bFmt with bottomMargin := 0 } else bFmt
    let bFmt := if s.zTopMrg then { bFmt with topMargin := 0 } else bFmt
    let bFmt := if s.indL then { bFmt with leftMargin := st.mIndent } else bFmt
    let bFmt := if s.indR then { bFmt with rightMargin := st.mIndent } else bFmt
    let bFmt := if s.indT then { bFmt with textIndent := st.tIndent } else bFmt
    bFmt

/-- One iteration of the `for tType, nHead, tText, tFormat, tStyle in
self._blocks` loop of `doConvert`: margin selection, style flags, then
dispatch on the block type. -/
def convertBlock (env : Env) (st : ConvState) (b : ContentBlock) : ConvState :=
  let bFmt := applyStyleFlags st (selectMargins st b.tType) b.tStyle
  if b.tType = .TEXT ∨ b.tType = .COMMENT ∨ b.tType = .KEYWORD then
    let doc := newBlock st.document bFmt
    let r := insertFragments env st.charFmt doc st.usedNotes b.tText b.tFormat st.charFmt
    { st with document := r.1, usedNotes := r.2 }
  else if isHeading b.tType then
    let hs := genHeadStyle env st b.tType b.nHead bFmt
    let doc := newBlock st.document hs.1
    { st with document := insertText doc (replaceSub env.headBR ['\n'] b.tText) hs.2 }
  else if b.tType = .SEP then
    { st with document := insertText (newBlock st.document bFmt) b.tText st.charFmt }
  else if b.tType = .SKIP then
    { st with document := insertText (newBlock st.document bFmt) [uNBSP] st.charFmt }
  else st

/-- Method `doConvert()`: no-op unless `_init` is set; otherwise process the
tokenizer's block sequence in order with the cursor at the end. -/
def doConvert (env : Env) (st : ConvState) (blocks : List ContentBlock) : ConvState :=
  if st.init then blocks.foldl (convertBlock env) st else st

/-- The character format used for a footnote entry's `"<index>. "`
prefix in `appendFootnotes`. -/
def noteFmt (env : Env) (st : ConvState) (index : Nat) : CharFormat :=
  { st.charFmt with
    foreground := env.themeCode,
    anchor := true,
    anchorNames := ["footnote_" ++ natString index] }

/-- One iteration of the `for key, index in self._usedNotes.items()`
loop of `appendFootnotes`: keys missing from the footnote store are
skipped; otherwise a new paragraph holds the `"<index>. "` prefix and
the content rendered through `_insertFragments`. -/
def appendNoteEntry (env : Env) (st : ConvState)
    (acc : Doc × List (String × Nat)) (entry : String × Nat) :
    Doc × List (String × Nat) :=
  match storeGet env.footnotes entry.1 with
  | some content =>
    let cFmt := noteFmt env st entry.2
    let doc := newBlock acc.1 st.blockFmt
    let doc := insertText doc (natStr entry.2 ++ ". ".toList) cFmt
    insertFragments env st.charFmt doc acc.2 content.1 content.2 st.charFmt
  | none => acc

/-- The `for key, index in self._usedNotes.items()` loop of
`appendFootnotes`, modelled as CPython's live dict-items iterator: the
dict entry table is read positionally (assignments to existing keys
update an entry in place, so a later position yields the updated index),
and every `next()` first compares the dict's current size against the
size recorded when the iterator was created, raising `RuntimeError`
(modelled as `none`) if the dict grew — which here can only happen when
a rendered footnote content carries a footnote-reference span to a new
key.  `fuel` is a structural-recursion bound only: every recursive call
requires the current length to equal `origLen` and the position to be
below it, so at most `origLen` recursive calls happen and the initial
fuel `origLen + 1` is never exhausted. -/
def notesLoopAux (env : Env) (st : ConvState) (origLen : Nat) :
    Nat → Nat → Doc × List (String × Nat) → Option (Doc × List (String × Nat))
  | 0, _, _ => none
  | fuel + 1, i, (doc, d) =>
    if d.length ≠ origLen then none
    else if h : i < d.length then
      notesLoopAux env st origLen fuel (i + 1)
        (appendNoteEntry env st (doc, d) (d.get ⟨i, h⟩))
    else some (doc, d)

/-- Method `appendFootnotes()`: nothing happens when no footnote was used;
otherwise a "Footnotes" heading (level 4, ordinal `-1`) is appended,
then one paragraph per used key in dict (first-use) order, iterating the
live dict view (`notesLoopAux`).  A `RuntimeError` from the dict growing
mid-iteration propagates to the caller, modelled as `none` (nothing in
this module catches it; the partially mutated document is not observed
here). -/
def appendFootnotes (env : Env) (st : ConvState) : Option ConvState :=
  if st.usedNotes.isEmpty then some st
  else
    let hs := genHeadStyle env st .HEAD4 (-1) st.blockFmt
    let doc := newBlock st.document hs.1
    let doc := insertText doc env.localFootnotes hs.2
    (notesLoopAux env st st.usedNotes.length (st.usedNotes.length + 1) 0
        (doc, st.usedNotes)).map
      (fun r => { st with document := r.1, usedNotes := r.2 })

/-! Basic lemmas about the document model -/

theorem modifyLast_concat (xs : Doc) (p : Para) (g : Para → Para) :
    modifyLast (xs ++ [p]) g = xs ++ [g p] := by
  induction xs with
  | nil => rfl
  | cons x xs ih =>
    cases xs with
    | nil => rfl
    | cons y ys =>
      simpa [modifyLast] using ih

theorem appendRun_concat (xs : Doc) (f : BlockFormat) (rs : List Run)
    (s : List Char) (fmt : CharFormat) :
    appendRun (xs ++ [⟨f, rs⟩]) s fmt
      = xs ++ [⟨f, rs ++ (if s.isEmpty then [] else [(s, fmt)])⟩] := by
  unfold appendRun
  split
  · simp
  · rw [modifyLast_concat]

theorem splitNl_no_nl (s : List Char) (h : '\n' ∉ s) : splitNl s = [s] := by
  induction s with
  | nil => rfl
  | cons c cs ih =>
    have hc : ¬ c = '\n' := fun e => h (e ▸ List.mem_cons_self c cs)
    have hcs : '\n' ∉ cs := fun m => h (List.mem_cons_of_mem _ m)
    simp [splitNl, hc, ih hcs]

theorem insertText_concat (xs : Doc) (f : BlockFormat) (rs : List Run)
    (s : List Char) (fmt : CharFormat) (h : '\n' ∉ s) :
    insertText (xs ++ [⟨f, rs⟩]) s fmt
      = xs ++ [⟨f, rs ++ (if s.isEmpty then [] else [(s, fmt)])⟩] := by
  unfold insertText
  split
  · next he => simp [he]
  · next he =>
    rw [splitNl_no_nl s h]
    simp only [List.foldl_nil]
    rw [appendRun_concat]
    simp [he]

theorem no_nl_lsepText (text : List Char) : '\n' ∉ lsepText text := by
  intro m
  obtain ⟨c, _, e⟩ := List.mem_map.mp m
  by_cases hc : c = '\n'
  · rw [if_pos hc] at e
    exact absurd e (by decide)
  · rw [if_neg hc] at e
    exact hc e

theorem no_nl_slice {s : List Char} (h : '\n' ∉ s) (a b : Nat) :
    '\n' ∉ slice s a b := by
  intro m
  exact h ((List.take_sublist b s).subset ((List.drop_sublist a _).subset m))

theorem no_nl_drop {s : List Char} (h : '\n' ∉ s) (a : Nat) :
    '\n' ∉ s.drop a := by
  intro m
  exact h ((List.drop_sublist a s).subset m)

theorem digitChar_ne_nl (d : Nat) : digitChar d ≠ '\n' := by
  unfold digitChar
  split_ifs <;> decide

theorem natStrAux_no_nl : ∀ (fuel n : Nat), '\n' ∉ natStrAux fuel n := by
  intro fuel
  induction fuel with
  | zero => intro n; simp [natStrAux]
  | succ fuel ih =>
    intro n
    rw [natStrAux]
    split
    · intro m
      exact digitChar_ne_nl n (List.mem_singleton.mp m).symm
    · intro m
      rcases List.mem_append.mp m with m | m
      · exact ih (n / 10) m
      · exact digitChar_ne_nl (n % 10) (List.mem_singleton.mp m).symm

theorem natStr_no_nl (n : Nat) : '\n' ∉ natStr n :=
  natStrAux_no_nl (n + 1) n

theorem natStr_ne_nil (n : Nat) : natStr n ≠ [] := by
  rw [natStr, natStrAux]
  split <;> simp

theorem lastFmt_concat (xs : Doc) (p : Para) : lastFmt (xs ++ [p]) = p.fmt := by
  simp [lastFmt, List.getLast?_concat]

theorem lastFmt_modifyLast (doc : Doc) (g : Para → Para)
    (hg : ∀ p, (g p).fmt = p.fmt) :
    lastFmt (modifyLast doc g) = lastFmt doc := by
  rcases List.eq_nil_or_concat doc with rfl | ⟨xs, p, rfl⟩
  · rfl
  · rw [List.concat_eq_append, modifyLast_concat, lastFmt_concat,
      lastFmt_concat, hg]

theorem lastFmt_appendRun (doc : Doc) (s : List Char) (fmt : CharFormat) :
    lastFmt (appendRun doc s fmt) = lastFmt doc := by
  unfold appendRun
  split
  · rfl
  · exact lastFmt_modifyLast doc _ (fun p => rfl)

theorem lastFmt_insertText (doc : Doc) (s : List Char) (fmt : CharFormat) :
    lastFmt (insertText doc s fmt) = lastFmt doc := by
  unfold insertText
  split
  · rfl
  · split
    · rfl
    · next first rest _ =>
      have key : ∀ (parts : List (List Char)) (d : Doc),
          lastFmt (parts.foldl
            (fun d part => appendRun (d ++ [⟨lastFmt d, []⟩]) part fmt) d)
            = lastFmt d := by
        intro parts
        induction parts with
        | nil => intro d; rfl
        | cons q qs ih =>
          intro d
          rw [List.foldl_cons, ih, lastFmt_appendRun, lastFmt_concat]
      rw [key, lastFmt_appendRun]

/-! Lemmas about the dict and store models -/

theorem dictGet_eq_none {d : List (String × Nat)} {k : String} :
    dictGet d k = none ↔ d.any (fun p => p.1 = k) = false := by
  induction d with
  | nil => simp [dictGet]
  | cons p ps ih =>
    by_cases hp : p.1 = k
    · rw [dictGet, List.find?_cons_of_pos _ (by simpa using hp)]
      simp [hp]
    · rw [dictGet, List.find?_cons_of_neg _ (by simpa using hp)]
      rw [dictGet] at ih
      simp [hp, ih]

theorem dictSet_not_mem {d : List (String × Nat)} {k : String} (v : Nat)
    (h : d.any (fun p => p.1 = k) = false) :
    dictSet d k v = d ++ [(k, v)] := by
  simp [dictSet, h]

theorem dictGet_dictSet_mem {d : List (String × Nat)} {k : String} (v : Nat)
    (h : d.any (fun p => p.1 = k) = true) :
    dictGet (dictSet d k v) k = some v := by
  rw [dictSet, if_pos h]
  induction d with
  | nil => simp at h
  | cons p ps ih =>
    by_cases hp : p.1 = k
    · simp [dictGet, List.find?, hp]
    · have hps : ps.any (fun p => p.1 = k) = true := by
        rcases List.any_eq_true.mp h with ⟨q, hq, hqk⟩
        rcases List.mem_cons.mp hq with rfl | hq
        · exact absurd (of_decide_eq_true hqk) hp
        · exact List.any_eq_true.mpr ⟨q, hq, hqk⟩
      have := ih hps
      simpa [dictGet, List.find?, hp] using this

theorem dictSet_keys_mem {d : List (String × Nat)} {k : String} (v : Nat)
    (h : d.any (fun p => p.1 = k) = true) :
    (dictSet d k v).map Prod.fst = d.map Prod.fst := by
  rw [dictSet, if_pos h, List.map_map]
  apply List.map_congr_left
  intro p _
  by_cases hp : p.1 = k
  · simp [hp]
  · simp [hp]

theorem storeGet_eq_none {s : List (String × FootnoteContent)} {k : String} :
    storeGet s k = none ↔ storeMem s k = false := by
  induction s with
  | nil => simp [storeGet, storeMem]
  | cons p ps ih =>
    by_cases hp : p.1 = k
    · rw [storeGet, List.find?_cons_of_pos _ (by simpa using hp)]
      simp [storeMem, hp]
    · rw [storeGet, List.find?_cons_of_neg _ (by simpa using hp)]
      rw [storeGet] at ih
      rw [storeMem] at ih ⊢
      simp [hp, ih]

theorem storeMem_of_storeGet {s : List (String × FootnoteContent)}
    {k : String} {c : FootnoteContent} (h : storeGet s k = some c) :
    storeMem s k = true := by
  by_contra hb
  have : storeMem s k = false := by
    cases hm : storeMem s k
    · rfl
    · exact absurd hm hb
  rw [storeGet_eq_none.mpr this] at h
  exact Option.noConfusion h

theorem natStrAux_length_le (k : Nat) : 0 < k → ∀ (fuel n : Nat),
    n < 10 ^ k → (natStrAux fuel n).length ≤ k := by
  induction k with
  | zero => intro h; omega
  | succ k ih =>
    intro _ fuel
    cases fuel with
    | zero => intro n _; simp [natStrAux]
    | succ fuel =>
      intro n hn
      rw [natStrAux]
      split
      · simp
      · next h10 =>
        have hk : 0 < k := by
          by_contra hk0
          have : k = 0 := by omega
          subst this
          simp at hn
          omega
        have hdiv : n / 10 < 10 ^ k := by
          rw [Nat.div_lt_iff_lt_mul (by omega)]
          calc n < 10 ^ (k + 1) := hn
          _ = 10 ^ k * 10 := by rw [Nat.pow_succ]
        have := ih hk fuel (n / 10) hdiv
        simp only [List.length_append, List.length_singleton]
        omega

theorem natStr_length_le (k : Nat) : ∀ n, 0 < k → n < 10 ^ k →
    (natStr n).length ≤ k := fun n hk hn =>
  natStrAux_length_le k hk (n + 1) n hn

/-! Shape lemmas for `newBlock` and `_insertFragments` -/

theorem newBlock_shape (doc : Doc) (bFmt : BlockFormat) :
    ∃ xs rs, newBlock doc bFmt = xs ++ [⟨bFmt, rs⟩] := by
  unfold newBlock
  split
  · next h =>
    cases doc with
    | nil => simp [atStart] at h
    | cons p rest =>
      cases rest with
      | nil => exact ⟨[], p.runs, rfl⟩
      | cons q qs => simp [atStart] at h
  · exact ⟨doc, [], rfl⟩

theorem newBlock_not_atStart (doc : Doc) (bFmt : BlockFormat)
    (h : atStart doc = false) :
    newBlock doc bFmt = doc ++ [⟨bFmt, []⟩] := by
  simp [newBlock, h]

theorem atStart_concat_of_ne_nil (doc : Doc) (p : Para) (h : doc ≠ []) :
    atStart (doc ++ [p]) = false := by
  cases doc with
  | nil => exact absurd rfl h
  | cons q qs => cases qs <;> rfl

/-- The marker inserted by a successful footnote reference. -/
theorem no_nl_fnote_marker (n : Nat) : '\n' ∉ ('[' :: (natStr n ++ [']'])) := by
  intro m
  rcases List.mem_cons.mp m with e | m
  · exact absurd e (by decide)
  · rcases List.mem_append.mp m with m | m
    · exact natStr_no_nl n m
    · exact absurd (List.mem_singleton.mp m) (by decide)

theorem insertFragStep_shape (env : Env) (base : CharFormat) (temp : List Char)
    (hnl : '\n' ∉ temp) (xs : Doc) (f : BlockFormat) (rs : List Run)
    (notes : List (String × Nat)) (cFmt : CharFormat) (start : Nat) (sp : Span) :
    ∃ δ notes' cFmt',
      insertFragStep env base temp ⟨xs ++ [⟨f, rs⟩], notes, cFmt, start⟩ sp
        = ⟨xs ++ [⟨f, rs ++ δ⟩], notes', cFmt', sp.pos⟩ := by
  unfold insertFragStep
  simp only
  rw [insertText_concat _ _ _ _ _ (no_nl_slice hnl start sp.pos)]
  by_cases hf : sp.fmt = .FNOTE
  · rw [if_pos hf]
    unfold fnoteInsert
    simp only
    by_cases hm : storeMem env.footnotes sp.data = true
    · rw [if_pos hm]
      simp only
      rw [insertText_concat _ _ _ _ _ (no_nl_fnote_marker _),
        List.append_assoc]
      exact ⟨_, _, _, rfl⟩
    · rw [if_neg hm]
      simp only
      rw [insertText_concat _ _ _ _ _ (by decide), List.append_assoc]
      exact ⟨_, _, _, rfl⟩
  · rw [if_neg hf]
    exact ⟨_, notes, _, rfl⟩

theorem fragFold_shape (env : Env) (base : CharFormat) (temp : List Char)
    (hnl : '\n' ∉ temp) (spans : List Span) :
    ∀ (xs : Doc) (f : BlockFormat) (rs : List Run) notes cFmt start,
      ∃ δ notes' cFmt' start',
        spans.foldl (insertFragStep env base temp) ⟨xs ++ [⟨f, rs⟩], notes, cFmt, start⟩
          = ⟨xs ++ [⟨f, rs ++ δ⟩], notes', cFmt', start'⟩ := by
  induction spans with
  | nil =>
    intro xs f rs notes cFmt start
    exact ⟨[], notes, cFmt, start, by simp⟩
  | cons sp sps ih =>
    intro xs f rs notes cFmt start
    obtain ⟨δ₁, n₁, c₁, hstep⟩ :=
      insertFragStep_shape env base temp hnl xs f rs notes cFmt start sp
    rw [List.foldl_cons, hstep]
    obtain ⟨δ₂, n₂, c₂, s₂, h2⟩ := ih xs f (rs ++ δ₁) n₁ c₁ sp.pos
    exact ⟨δ₁ ++ δ₂, n₂, c₂, s₂, by rw [h2, List.append_assoc]⟩

theorem insertFragments_shape (env : Env) (base : CharFormat) (xs : Doc)
    (f : BlockFormat) (rs : List Run) (notes : List (String × Nat))
    (text : List Char) (spans : List Span) (dFmt : CharFormat) :
    ∃ δ notes',
      insertFragments env base (xs ++ [⟨f, rs⟩]) notes text spans dFmt
        = (xs ++ [⟨f, rs ++ δ⟩], notes') := by
  simp only [insertFragments]
  obtain ⟨δ, n', c', s', h⟩ :=
    fragFold_shape env base (lsepText text) (no_nl_lsepText text) spans
      xs f rs notes dFmt 0
  rw [h]
  simp only
  rw [insertText_concat _ _ _ _ _ (no_nl_drop (no_nl_lsepText text) s'),
    List.append_assoc]
  exact ⟨_, n', rfl⟩

theorem lastFmt_insertFragments (env : Env) (base : CharFormat) (doc : Doc)
    (notes : List (String × Nat)) (text : List Char) (spans : List Span)
    (dFmt : CharFormat) (hd : doc ≠ []) :
    lastFmt (insertFragments env base doc notes text spans dFmt).1 = lastFmt doc := by
  obtain ⟨xs, p, rfl⟩ := (List.eq_nil_or_concat doc).resolve_left hd
  obtain ⟨pf, pr⟩ := p
  rw [List.concat_eq_append]
  obtain ⟨δ, n', h⟩ :=
    insertFragments_shape env base xs pf pr notes text spans dFmt
  rw [h, lastFmt_concat, lastFmt_concat]

/-! Spec-side description of the Inline Fragment Applier

`applierSpecRuns` is written from the spec's words (§4.3), for comparison
with `insertFragments`: for each span in order, the text slice from the
previous cursor position to the span's position with the running format
current before that span; after all spans, the remaining slice with the
final running format; empty slices produce no run. -/

/-- The runs produced by the span loop only (no trailing remainder):
each span emits the slice since the previous position with the running
format current before the span mutates it. -/
def stepRuns (env : Env) (temp : List Char) : Nat → CharFormat → List Span → List Run
  | _, _, [] => []
  | start, c, sp :: sps =>
    (if (slice temp start sp.pos).isEmpty then []
     else [(slice temp start sp.pos, c)])
      ++ stepRuns env temp sp.pos (applySpanFmt env c sp.fmt sp.data) sps

/-- Spec-side run list for a block with no footnote-reference spans:
the per-span slices followed by the remaining slice with the final
running format. -/
def applierSpecRuns (env : Env) (temp : List Char) (start : Nat)
    (c : CharFormat) (spans : List Span) : List Run :=
  stepRuns env temp start c spans
    ++ (if (temp.drop (spans.foldl (fun _ sp => sp.pos) start)).isEmpty then []
        else [(temp.drop (spans.foldl (fun _ sp => sp.pos) start),
               spans.foldl (fun a sp => applySpanFmt env a sp.fmt sp.data) c)])

theorem fragFold_chars (env : Env) (base : CharFormat) (temp : List Char)
    (hnl : '\n' ∉ temp) (spans : List Span) :
    ∀ (xs : Doc) (f : BlockFormat) (rs : List Run) notes cFmt start,
      (∀ sp ∈ spans, sp.fmt ≠ .FNOTE) →
      spans.foldl (insertFragStep env base temp) ⟨xs ++ [⟨f, rs⟩], notes, cFmt, start⟩
        = ⟨xs ++ [⟨f, rs ++ stepRuns env temp start cFmt spans⟩], notes,
           spans.foldl (fun a sp => applySpanFmt env a sp.fmt sp.data) cFmt,
           spans.foldl (fun _ sp => sp.pos) start⟩ := by
  induction spans with
  | nil =>
    intro xs f rs notes cFmt start _
    simp [stepRuns]
  | cons sp sps ih =>
    intro xs f rs notes cFmt start h
    have hf : sp.fmt ≠ .FNOTE := h sp (List.mem_cons_self sp sps)
    rw [List.foldl_cons]
    have hstep :
        insertFragStep env base temp ⟨xs ++ [⟨f, rs⟩], notes, cFmt, start⟩ sp
          = ⟨xs ++ [⟨f, rs ++ (if (slice temp start sp.pos).isEmpty then []
                else [(slice temp start sp.pos, cFmt)])⟩], notes,
             applySpanFmt env cFmt sp.fmt sp.data, sp.pos⟩ := by
      unfold insertFragStep
      simp only
      rw [insertText_concat _ _ _ _ _ (no_nl_slice hnl start sp.pos),
        if_neg hf]
    rw [hstep, ih xs f _ notes _ sp.pos
      (fun q hq => h q (List.mem_cons_of_mem sp hq))]
    simp only [List.foldl_cons, stepRuns, List.append_assoc]

theorem insertFragments_chars (env : Env) (base : CharFormat) (xs : Doc)
    (f : BlockFormat) (rs : List Run) (notes : List (String × Nat))
    (text : List Char) (spans : List Span) (dFmt : CharFormat)
    (h : ∀ sp ∈ spans, sp.fmt ≠ .FNOTE) :
    insertFragments env base (xs ++ [⟨f, rs⟩]) notes text spans dFmt
      = (xs ++ [⟨f, rs ++ applierSpecRuns env (lsepText text) 0 dFmt spans⟩],
         notes) := by
  simp only [insertFragments]
  rw [fragFold_chars env base (lsepText text) (no_nl_lsepText text) spans
    xs f rs notes dFmt 0 h]
  simp only
  rw [insertText_concat _ _ _ _ _
    (no_nl_drop (no_nl_lsepText text) _)]
  rw [applierSpecRuns, List.append_assoc]

/-! Block-level lemmas -/

theorem lastFmt_newBlock (doc : Doc) (bFmt : BlockFormat) :
    lastFmt (newBlock doc bFmt) = bFmt := by
  obtain ⟨xs, rs, h⟩ := newBlock_shape doc bFmt
  rw [h, lastFmt_concat]

theorem newBlock_ne_nil (doc : Doc) (bFmt : BlockFormat) :
    newBlock doc bFmt ≠ [] := by
  obtain ⟨xs, rs, h⟩ := newBlock_shape doc bFmt
  rw [h]
  simp

theorem lastFmt_frag_newBlock (env : Env) (base : CharFormat) (doc : Doc)
    (bFmt : BlockFormat) (notes : List (String × Nat)) (text : List Char)
    (spans : List Span) (dFmt : CharFormat) :
    lastFmt (insertFragments env base (newBlock doc bFmt) notes text spans dFmt).1
      = bFmt := by
  rw [lastFmt_insertFragments _ _ _ _ _ _ _ (newBlock_ne_nil doc bFmt),
    lastFmt_newBlock]

theorem insertFragments_newBlock_notes (env : Env) (base : CharFormat)
    (doc : Doc) (bFmt : BlockFormat) (notes : List (String × Nat))
    (text : List Char) (spans : List Span) (dFmt : CharFormat)
    (h : ∀ sp ∈ spans, sp.fmt ≠ .FNOTE) :
    (insertFragments env base (newBlock doc bFmt) notes text spans dFmt).2
      = notes := by
  obtain ⟨xs, rs, hnb⟩ := newBlock_shape doc bFmt
  rw [hnb, insertFragments_chars env base xs bFmt rs notes text spans dFmt h]

theorem applyStyleFlags_zTop (st : ConvState) (bf : BlockFormat)
    (s : BlockStyle) (h : s.zTopMrg = true) :
    (applyStyleFlags st bf (some s)).topMargin = 0 := by
  simp only [applyStyleFlags, h]
  simp [apply_ite BlockFormat.topMargin]

theorem applyStyleFlags_zBtm (st : ConvState) (bf : BlockFormat)
    (s : BlockStyle) (h : s.zBtmMrg = true) :
    (applyStyleFlags st bf (some s)).bottomMargin = 0 := by
  simp only [applyStyleFlags, h]
  simp [apply_ite BlockFormat.bottomMargin]

theorem lastFmt_convertBlock (env : Env) (st : ConvState) (b : ContentBlock) :
    lastFmt (convertBlock env st b).document
      = (if isHeading b.tType
         then (genHeadStyle env st b.tType b.nHead
             (applyStyleFlags st (selectMargins st b.tType) b.tStyle)).1
         else applyStyleFlags st (selectMargins st b.tType) b.tStyle) := by
  obtain ⟨t, nH, tx, sp, sty⟩ := b
  cases t <;>
    simp [convertBlock, isHeading, lastFmt_frag_newBlock, lastFmt_insertText,
      lastFmt_newBlock]

theorem convertBlock_usedNotes (env : Env) (st : ConvState) (b : ContentBlock)
    (h : ∀ sp ∈ b.tFormat, sp.fmt ≠ .FNOTE) :
    (convertBlock env st b).usedNotes = st.usedNotes := by
  obtain ⟨t, nH, tx, sps, sty⟩ := b
  cases t <;>
    simp [convertBlock, isHeading,
      insertFragments_newBlock_notes _ _ _ _ _ _ _ _ (by simpa using h)]

/-! Lemmas for the footnote appender -/

/-- The property of one appended footnote paragraph stated by the spec:
base text block format, and the runs are exactly the `"<index>. "`
prefix in the footnote character format followed by the key's stored
footnote content rendered through the Inline Fragment Applier (whose
run output for footnote-free content is `applierSpecRuns`, proved equal
to `insertFragments` in `insertFragments_chars`). -/
def NotePara (env : Env) (st : ConvState) (e : String × Nat) (p : Para) : Prop :=
  ∃ c : FootnoteContent,
    storeGet env.footnotes e.1 = some c ∧
    p.fmt = st.blockFmt ∧
    p.runs = ((natStr e.2 ++ ". ".toList : List Char), noteFmt env st e.2)
      :: applierSpecRuns env (lsepText c.1) 0 st.charFmt c.2

theorem no_nl_noteLabel (n : Nat) : '\n' ∉ (natStr n ++ ". ".toList) := by
  intro m
  rcases List.mem_append.mp m with m | m
  · exact natStr_no_nl n m
  · revert m
    decide

theorem noteLabel_ne_nil (n : Nat) : (natStr n ++ ". ".toList) ≠ [] := by
  simp

theorem storeGet_spans_nonFnote {env : Env}
    (h5 : ∀ e ∈ env.footnotes, ∀ sp ∈ e.2.2, sp.fmt ≠ TextFmt.FNOTE)
    {k : String} {c : FootnoteContent}
    (hs : storeGet env.footnotes k = some c) :
    ∀ sp ∈ c.2, sp.fmt ≠ TextFmt.FNOTE := by
  unfold storeGet at hs
  cases hf : env.footnotes.find? (fun p => p.1 = k) with
  | none =>
    rw [hf] at hs
    exact Option.noConfusion hs
  | some e =>
    rw [hf] at hs
    have he : e ∈ env.footnotes := List.mem_of_find?_eq_some hf
    have hec : e.2 = c := by simpa using hs
    intro sp hsp
    apply h5 e he sp
    rw [hec]
    exact hsp

theorem appendNoteEntry_chars (env : Env) (st : ConvState) (doc : Doc)
    (d : List (String × Nat)) (e : String × Nat) (c : FootnoteContent)
    (hstart : atStart doc = false)
    (hs : storeGet env.footnotes e.1 = some c)
    (hc : ∀ sp ∈ c.2, sp.fmt ≠ TextFmt.FNOTE) :
    appendNoteEntry env st (doc, d) e
      = (doc ++ [⟨st.blockFmt,
          ((natStr e.2 ++ ". ".toList : List Char), noteFmt env st e.2)
            :: applierSpecRuns env (lsepText c.1) 0 st.charFmt c.2⟩], d) := by
  simp only [appendNoteEntry, hs]
  rw [newBlock_not_atStart doc st.blockFmt hstart,
    insertText_concat _ _ _ _ _ (no_nl_noteLabel e.2),
    if_neg (by simpa using noteLabel_ne_nil e.2)]
  simp only [List.nil_append]
  rw [insertFragments_chars env st.charFmt doc st.blockFmt
    [((natStr e.2 ++ ". ".toList : List Char), noteFmt env st e.2)]
    d c.1 c.2 st.charFmt hc]
  simp

theorem notesLoopAux_spec (env : Env) (st : ConvState)
    (d : List (String × Nat))
    (h5 : ∀ e ∈ env.footnotes, ∀ sp ∈ e.2.2, sp.fmt ≠ TextFmt.FNOTE) :
    ∀ (fuel i : Nat) (doc : Doc), doc ≠ [] → atStart doc = false →
      fuel = d.length + 1 - i → i ≤ d.length →
      ∃ ps : List Para,
        notesLoopAux env st d.length fuel i (doc, d) = some (doc ++ ps, d) ∧
        List.Forall₂ (NotePara env st)
          ((d.drop i).filter (fun e => storeMem env.footnotes e.1)) ps := by
  intro fuel
  induction fuel with
  | zero =>
    intro i doc _ _ hfuel hi
    omega
  | succ fuel ih =>
    intro i doc hdoc hstart hfuel hi
    simp only [notesLoopAux]
    rw [if_neg (by simp)]
    by_cases h : i < d.length
    · rw [dif_pos h]
      have hdrop : d.drop i = d.get ⟨i, h⟩ :: d.drop (i + 1) :=
        (List.get_cons_drop d ⟨i, h⟩).symm
      generalize hge : d.get ⟨i, h⟩ = e at hdrop ⊢
      cases hsg : storeGet env.footnotes e.1 with
      | none =>
        have hmem : storeMem env.footnotes e.1 = false :=
          storeGet_eq_none.mp hsg
        have hstep : appendNoteEntry env st (doc, d) e = (doc, d) := by
          simp [appendNoteEntry, hsg]
        rw [hstep]
        obtain ⟨ps, hloop, hfa⟩ := ih (i + 1) doc hdoc hstart (by omega) (by omega)
        refine ⟨ps, hloop, ?_⟩
        rw [hdrop, List.filter_cons]
        simp [hmem, hfa]
      | some c =>
        have hmem : storeMem env.footnotes e.1 = true :=
          storeMem_of_storeGet hsg
        have hc := storeGet_spans_nonFnote h5 hsg
        rw [appendNoteEntry_chars env st doc d e c hstart hsg hc]
        obtain ⟨ps, hloop, hfa⟩ :=
          ih (i + 1)
            (doc ++ [⟨st.blockFmt,
              ((natStr e.2 ++ ". ".toList : List Char), noteFmt env st e.2)
                :: applierSpecRuns env (lsepText c.1) 0 st.charFmt c.2⟩])
            (by simp) (atStart_concat_of_ne_nil doc _ hdoc) (by omega) (by omega)
        refine ⟨⟨st.blockFmt,
            ((natStr e.2 ++ ". ".toList : List Char), noteFmt env st e.2)
              :: applierSpecRuns env (lsepText c.1) 0 st.charFmt c.2⟩ :: ps,
          ?_, ?_⟩
        · rw [hloop]
          simp
        · rw [hdrop, List.filter_cons]
          simp only [hmem, if_pos]
          exact List.Forall₂.cons ⟨c, hsg, rfl, rfl⟩ hfa
    · rw [dif_neg h]
      have hil : i = d.length := by omega
      refine ⟨[], by simp, ?_⟩
      rw [hil, List.drop_length]
      simp

theorem foldl_convertBlock_usedNotes (env : Env) (blocks : List ContentBlock) :
    ∀ st : ConvState,
      (∀ b ∈ blocks, ∀ sp ∈ b.tFormat, sp.fmt ≠ TextFmt.FNOTE) →
      (blocks.foldl (convertBlock env) st).usedNotes = st.usedNotes := by
  induction blocks with
  | nil => intro st _; rfl
  | cons b bs ih =>
    intro st h
    rw [List.foldl_cons,
      ih _ (fun q hq => h q (List.mem_cons_of_mem b hq)),
      convertBlock_usedNotes env st b (h b (List.mem_cons_self b bs))]

/-! A concrete environment and inputs for witnesses and counterexamples -/

/-- A small concrete configuration: 2 pixels per em, heading 1 margin
factors (3, 1), one color class `dialog`, and two stored footnotes. -/
def envA : Env where
  mPx := 2
  fPt := 10
  marginTitle := (4, 1)
  marginHead1 := (3, 1)
  marginHead2 := (2, 1)
  marginHead3 := (1, 1)
  marginHead4 := (1, 1)
  marginText := (1, 1)
  marginMeta := (1, 1)
  marginSep := (1, 1)
  firstWidth := 2
  lineHeight := 1
  scaleHeads := false
  boldHeads := true
  colorHeads := true
  hSizes := fun _ => none
  themeText := .named "text"
  themeHead := .named "head"
  themeCode := .named "code"
  themeHighlight := .named "hl"
  classes := fun s => if s = "dialog" then some (.named "dlg") else none
  footnotes := [("a", ("See note".toList, [])), ("b", ("Other".toList, []))]
  handle := "0123456789abc"
  localFootnotes := "Footnotes".toList
  headBR := "<br>".toList

/-- The converter state right after `initDocument` on `envA`. -/
def st0A : ConvState := initDocument envA initState

/-- The C2 scenario block: text `Hello [world]` with bold begin at 6 and
bold end at 11. -/
def blkHello : ContentBlock :=
  ⟨.TEXT, -1, "Hello [world]".toList, [⟨6, .B_B, ""⟩, ⟨11, .B_E, ""⟩], none⟩

/-- A text block consisting of a single footnote reference to `k`. -/
def blkNote (k : String) : ContentBlock :=
  ⟨.TEXT, -1, [], [⟨0, .FNOTE, k⟩], none⟩

/-- Style flags zeroing both margins. -/
def styleZ : BlockStyle := { zTopMrg := true, zBtmMrg := true }

/-- A Head1 block carrying the zero-margin flags. -/
def blkHeadZ : ContentBlock :=
  ⟨.HEAD1, 3, "Chapter".toList, [], some styleZ⟩

/-! Claim theorems -/

/-- C1 (counterexample): re-referencing footnote key `a` (whose content
is in the store, in a later block) does not reuse its already-assigned
index 1: it assigns index 3, overwriting the registry entry, and the
third emitted marker is `[3]`, not `[1]`. -/
theorem c1_counterexample :
    dictGet (doConvert envA st0A [blkNote "a", blkNote "b", blkNote "a"]).usedNotes "a"
      = some 3 ∧
    dictGet (doConvert envA st0A [blkNote "a", blkNote "b", blkNote "a"]).usedNotes "a"
      ≠ some 1 ∧
    ((doConvert envA st0A [blkNote "a", blkNote "b", blkNote "a"]).document.map
        (fun p => p.runs.map (fun r => r.1)))
      = [["[1]".toList], ["[2]".toList], ["[3]".toList]] := by
  decide

/-- C1 (amended): a reference to a key present in the footnote store
always assigns the index `len(usedNotes) + 1`: a first reference appends
the key with that index (so first-reference indices increase strictly in
order of first reference), while a re-reference overwrites the key's
registry entry in place with the fresh `len + 1` index, keeping the key
order but not reusing the already-assigned index. -/
theorem c1_theorem (env : Env) (base : CharFormat) (fs : FragState)
    (k : String) (hmem : storeMem env.footnotes k = true) :
    (dictGet fs.notes k = none →
      (fnoteInsert env base fs k).notes = fs.notes ++ [(k, dictLen fs.notes + 1)]) ∧
    (dictGet fs.notes k ≠ none →
      dictGet (fnoteInsert env base fs k).notes k = some (dictLen fs.notes + 1) ∧
      (fnoteInsert env base fs k).notes.map Prod.fst = fs.notes.map Prod.fst) := by
  have hnotes : (fnoteInsert env base fs k).notes
      = dictSet fs.notes k (dictLen fs.notes + 1) := by
    simp [fnoteInsert, hmem]
  constructor
  · intro h
    rw [hnotes, dictSet_not_mem _ (dictGet_eq_none.mp h)]
  · intro h
    have hany : fs.notes.any (fun p => p.1 = k) = true := by
      cases ha : fs.notes.any (fun p => p.1 = k)
      · exact absurd (dictGet_eq_none.mpr ha) h
      · rfl
    rw [hnotes]
    exact ⟨dictGet_dictSet_mem _ hany, dictSet_keys_mem _ hany⟩

/-- C1 (witness): instantiation at key `a`, with `b` already used. -/
theorem c1_witness :
    storeMem envA.footnotes "a" = true ∧
    ((dictGet ([("b", 1)] : List (String × Nat)) "a" = none →
        (fnoteInsert envA {} ⟨[⟨{}, []⟩], [("b", 1)], {}, 0⟩ "a").notes
          = [("b", 1)] ++ [("a", dictLen [("b", 1)] + 1)]) ∧
      (dictGet ([("b", 1)] : List (String × Nat)) "a" ≠ none →
        dictGet (fnoteInsert envA {} ⟨[⟨{}, []⟩], [("b", 1)], {}, 0⟩ "a").notes "a"
          = some (dictLen [("b", 1)] + 1) ∧
        (fnoteInsert envA {} ⟨[⟨{}, []⟩], [("b", 1)], {}, 0⟩ "a").notes.map Prod.fst
          = ([("b", 1)] : List (String × Nat)).map Prod.fst)) :=
  ⟨by decide, c1_theorem envA {} ⟨[⟨{}, []⟩], [("b", 1)], {}, 0⟩ "a" (by decide)⟩

/-- C2 (counterexample): the claimed scenario output is wrong: on text
`Hello [world]` with bold begin at 6 and bold end at 11, the three runs
are `Hello `, `[worl` (bold) and `d]`, not `Hello `, `world` (bold)
and `]`. -/
theorem c2_counterexample :
    ((doConvert envA st0A [blkHello]).document.map
        (fun p => p.runs.map (fun r => (r.1, r.2.fontWeight))))
      = [[("Hello ".toList, Weight.normal), ("[worl".toList, Weight.bold),
          ("d]".toList, Weight.normal)]] ∧
    ((doConvert envA st0A [blkHello]).document.map
        (fun p => p.runs.map (fun r => (r.1, r.2.fontWeight))))
      ≠ [[("Hello ".toList, Weight.normal), ("world".toList, Weight.bold),
          ("]".toList, Weight.normal)]] := by
  decide

/-- C2 (amended): for every block with no footnote-reference spans, the
applier emits, for each span in order, the slice from the previous
cursor position to the span's position with the running format current
before that span, then the remaining slice with the final format
(`applierSpecRuns`); in particular the scenario block renders as three
consecutive runs in one paragraph: `Hello ` normal, `[worl` bold, `d]`
normal. -/
theorem c2_theorem :
    (∀ (env : Env) (base dFmt : CharFormat) (xs : Doc) (f : BlockFormat)
        (rs : List Run) (notes : List (String × Nat)) (text : List Char)
        (spans : List Span),
        (∀ sp ∈ spans, sp.fmt ≠ TextFmt.FNOTE) →
        insertFragments env base (xs ++ [⟨f, rs⟩]) notes text spans dFmt
          = (xs ++ [⟨f, rs ++ applierSpecRuns env (lsepText text) 0 dFmt spans⟩],
             notes)) ∧
    ((doConvert envA st0A [blkHello]).document.map
        (fun p => p.runs.map (fun r => (r.1, r.2.fontWeight))))
      = [[("Hello ".toList, Weight.normal), ("[worl".toList, Weight.bold),
          ("d]".toList, Weight.normal)]] :=
  ⟨fun env base dFmt xs f rs notes text spans h =>
      insertFragments_chars env base xs f rs notes text spans dFmt h,
   by decide⟩

/-- C2 (witness): instantiation of the general clause at the scenario
block's text and spans. -/
theorem c2_witness :
    (∀ sp ∈ ([⟨6, .B_B, ""⟩, ⟨11, .B_E, ""⟩] : List Span),
        sp.fmt ≠ TextFmt.FNOTE) ∧
    insertFragments envA {} ([] ++ [⟨{}, []⟩]) [] "Hello [world]".toList
        [⟨6, .B_B, ""⟩, ⟨11, .B_E, ""⟩] {}
      = ([] ++ [⟨{}, [] ++ applierSpecRuns envA (lsepText "Hello [world]".toList)
          0 {} [⟨6, .B_B, ""⟩, ⟨11, .B_E, ""⟩]⟩], []) :=
  ⟨by decide, c2_theorem.1 envA {} {} [] {} [] [] _ _ (by decide)⟩

/-- C3: if the used-notes registry is empty nothing is appended; if it is
non-empty, the appender succeeds (raising nothing) and emits one heading
paragraph (heading level 4, ordinal `-1`, the localized `Footnotes`
label, no anchor attached) directly after the document, followed by one
paragraph per used key in first-use (dict) order, skipping keys missing
from the store, each holding the base block format and consisting
exactly of the `"<index>. "` run in the footnote character format
followed by the key's stored content rendered through the Inline
Fragment Applier; the registry itself is unchanged.  The hypothesis `h5`
restricts stored footnote contents to carry no footnote-reference span
of their own (what the tokenizer produces): with such a span the live
dict iteration would see overwritten indices or raise `RuntimeError`. -/
theorem c3_theorem (env : Env) (st : ConvState)
    (h1 : st.document ≠ []) (h2 : atStart st.document = false)
    (h3 : env.localFootnotes ≠ []) (h4 : '\n' ∉ env.localFootnotes)
    (h5 : ∀ e ∈ env.footnotes, ∀ sp ∈ e.2.2, sp.fmt ≠ TextFmt.FNOTE) :
    (st.usedNotes = [] → appendFootnotes env st = some st) ∧
    (st.usedNotes ≠ [] →
      ∃ (ps : List Para) (st' : ConvState),
        appendFootnotes env st = some st' ∧
        st'.document
          = st.document
            ++ ⟨(genHeadStyle env st .HEAD4 (-1) st.blockFmt).1,
                [(env.localFootnotes,
                  (genHeadStyle env st .HEAD4 (-1) st.blockFmt).2)]⟩ :: ps ∧
        List.Forall₂ (NotePara env st)
          (st.usedNotes.filter (fun e => storeMem env.footnotes e.1)) ps ∧
        st'.usedNotes = st.usedNotes ∧
        (genHeadStyle env st .HEAD4 (-1) st.blockFmt).2.anchor
          = st.charFmt.anchor) := by
  constructor
  · intro h
    simp [appendFootnotes, h]
  · intro h
    have hne : st.usedNotes.isEmpty = false := by
      cases hu : st.usedNotes with
      | nil => exact absurd hu h
      | cons e es => rfl
    obtain ⟨ps, hloop, hfa⟩ :=
      notesLoopAux_spec env st st.usedNotes h5 (st.usedNotes.length + 1) 0
        (st.document ++ [⟨(genHeadStyle env st .HEAD4 (-1) st.blockFmt).1,
          [(env.localFootnotes, (genHeadStyle env st .HEAD4 (-1) st.blockFmt).2)]⟩])
        (by simp) (atStart_concat_of_ne_nil _ _ h1) (by omega) (by omega)
    have happ : appendFootnotes env st
        = some { st with
            document := (st.document
              ++ [⟨(genHeadStyle env st .HEAD4 (-1) st.blockFmt).1,
                  [(env.localFootnotes,
                    (genHeadStyle env st .HEAD4 (-1) st.blockFmt).2)]⟩]) ++ ps,
            usedNotes := st.usedNotes } := by
      simp only [appendFootnotes, hne, Bool.false_eq_true, if_false]
      rw [newBlock_not_atStart _ _ h2, insertText_concat _ _ _ _ _ h4,
        if_neg (by simpa using h3)]
      simp only [List.nil_append]
      rw [hloop]
      rfl
    refine ⟨ps, _, happ, ?_, hfa, rfl, ?_⟩
    · simp
    · simp [genHeadStyle]

/-- C3 (witness): instantiation at a state that used footnote `a`. -/
theorem c3_witness :
    (doConvert envA st0A [blkNote "a"]).document ≠ [] ∧
    atStart (doConvert envA st0A [blkNote "a"]).document = false ∧
    envA.localFootnotes ≠ [] ∧
    '\n' ∉ envA.localFootnotes ∧
    (∀ e ∈ envA.footnotes, ∀ sp ∈ e.2.2, sp.fmt ≠ TextFmt.FNOTE) ∧
    (((doConvert envA st0A [blkNote "a"]).usedNotes = [] →
        appendFootnotes envA (doConvert envA st0A [blkNote "a"])
          = some (doConvert envA st0A [blkNote "a"])) ∧
      ((doConvert envA st0A [blkNote "a"]).usedNotes ≠ [] →
        ∃ (ps : List Para) (st' : ConvState),
          appendFootnotes envA (doConvert envA st0A [blkNote "a"]) = some st' ∧
          st'.document
            = (doConvert envA st0A [blkNote "a"]).document
              ++ ⟨(genHeadStyle envA (doConvert envA st0A [blkNote "a"]) .HEAD4 (-1)
                    (doConvert envA st0A [blkNote "a"]).blockFmt).1,
                  [(envA.localFootnotes,
                    (genHeadStyle envA (doConvert envA st0A [blkNote "a"]) .HEAD4 (-1)
                      (doConvert envA st0A [blkNote "a"]).blockFmt).2)]⟩ :: ps ∧
          List.Forall₂ (NotePara envA (doConvert envA st0A [blkNote "a"]))
            ((doConvert envA st0A [blkNote "a"]).usedNotes.filter
              (fun e => storeMem envA.footnotes e.1)) ps ∧
          st'.usedNotes = (doConvert envA st0A [blkNote "a"]).usedNotes ∧
          (genHeadStyle envA (doConvert envA st0A [blkNote "a"]) .HEAD4 (-1)
              (doConvert envA st0A [blkNote "a"]).blockFmt).2.anchor
            = (doConvert envA st0A [blkNote "a"]).charFmt.anchor)) :=
  ⟨by decide, by decide, by decide, by decide, by decide,
   c3_theorem envA (doConvert envA st0A [blkNote "a"])
     (by decide) (by decide) (by decide) (by decide) (by decide)⟩

/-- C4 (counterexample): a Head1 block with the zero-top-margin flag set
still gets the heading's own top margin (6, from `mPx = 2` times margin
factor 3), not 0: the heading margin selection in the dispatch step
overrides the zeroing. -/
theorem c4_counterexample :
    (lastFmt (doConvert envA st0A [blkHeadZ]).document).topMargin
      = envA.mPx * envA.marginHead1.1 ∧
    (lastFmt (doConvert envA st0A [blkHeadZ]).document).topMargin ≠ 0 := by
  have h : (lastFmt (doConvert envA st0A [blkHeadZ]).document).topMargin
      = envA.mPx * envA.marginHead1.1 := rfl
  refine ⟨h, ?_⟩
  rw [h]
  norm_num [envA]

/-- C4 (amended): for a block whose style flags zero the top (resp.
bottom) margin, the emitted block format has that margin zero — except
for heading blocks, whose `_genHeadStyle` margins are applied after the
flags in the dispatch step and therefore override the zeroing with the
heading's own margins. -/
theorem c4_theorem (env : Env) (st : ConvState) (b : ContentBlock)
    (s : BlockStyle) (hstyle : b.tStyle = some s) :
    (s.zTopMrg = true →
      (lastFmt (convertBlock env st b).document).topMargin
        = if isHeading b.tType then ((st.mHead b.tType).getD (0, 0)).1 else 0) ∧
    (s.zBtmMrg = true →
      (lastFmt (convertBlock env st b).document).bottomMargin
        = if isHeading b.tType then ((st.mHead b.tType).getD (0, 0)).2 else 0) := by
  constructor
  · intro h
    rw [lastFmt_convertBlock]
    by_cases hh : isHeading b.tType = true
    · rw [if_pos hh, if_pos hh]
      simp [genHeadStyle]
    · rw [if_neg hh, if_neg hh, hstyle, applyStyleFlags_zTop _ _ _ h]
  · intro h
    rw [lastFmt_convertBlock]
    by_cases hh : isHeading b.tType = true
    · rw [if_pos hh, if_pos hh]
      simp [genHeadStyle]
    · rw [if_neg hh, if_neg hh, hstyle, applyStyleFlags_zBtm _ _ _ h]

/-- C4 (witness): instantiation at the flagged Head1 block. -/
theorem c4_witness :
    blkHeadZ.tStyle = some styleZ ∧
    ((styleZ.zTopMrg = true →
        (lastFmt (convertBlock envA st0A blkHeadZ).document).topMargin
          = if isHeading blkHeadZ.tType
            then ((st0A.mHead blkHeadZ.tType).getD (0, 0)).1 else 0) ∧
     (styleZ.zBtmMrg = true →
        (lastFmt (convertBlock envA st0A blkHeadZ).document).bottomMargin
          = if isHeading blkHeadZ.tType
            then ((st0A.mHead blkHeadZ.tType).getD (0, 0)).2 else 0)) :=
  ⟨rfl, c4_theorem envA st0A blkHeadZ styleZ rfl⟩

/-- C5 (counterexample): the used-notes registry is not reset at the
start of a pass: after a first pass referencing `a`, a second pass on
the same instance referencing `b` assigns index 2 (continuing the
numbering) and keeps `a` in the registry, instead of starting again at 1
with an empty registry. -/
theorem c5_counterexample :
    (doConvert envA (doConvert envA st0A [blkNote "a"]) [blkNote "b"]).usedNotes
      = [("a", 1), ("b", 2)] ∧
    dictGet (doConvert envA (doConvert envA st0A [blkNote "a"])
        [blkNote "b"]).usedNotes "b" = some 2 ∧
    (doConvert envA (doConvert envA st0A [blkNote "a"]) [blkNote "b"]).usedNotes
      ≠ [("b", 1)] := by
  decide

/-- C5 (amended): the footnote usage counter and used-notes registry are
tied to the converter instance, not to one pass: `doConvert` never
clears them — a pass whose blocks contain no footnote-reference span
leaves the registry exactly as it was, so a later pass continues from
the previous state rather than restarting at 1. -/
theorem c5_theorem (env : Env) (st : ConvState) (blocks : List ContentBlock)
    (h : ∀ b ∈ blocks, ∀ sp ∈ b.tFormat, sp.fmt ≠ TextFmt.FNOTE) :
    (doConvert env st blocks).usedNotes = st.usedNotes := by
  unfold doConvert
  split
  · exact foldl_convertBlock_usedNotes env blocks st h
  · rfl

/-- C5 (witness): a pass over the C2 scenario block (no footnote spans)
preserves the registry. -/
theorem c5_witness :
    (∀ b ∈ [blkHello], ∀ sp ∈ b.tFormat, sp.fmt ≠ TextFmt.FNOTE) ∧
    (doConvert envA st0A [blkHello]).usedNotes = st0A.usedNotes :=
  ⟨by decide, c5_theorem envA st0A [blkHello] (by decide)⟩

/-- C6: a footnote-reference span whose key is absent from the store
emits the buffered slice and then a literal `[ERR]` run with the current
running character format, leaves the running format and the used-notes
registry unchanged, advances the cursor, and raises nothing — the rest
of the block is processed normally. -/
theorem c6_theorem (env : Env) (base : CharFormat) (temp : List Char)
    (fs : FragState) (sp : Span) (h1 : sp.fmt = TextFmt.FNOTE)
    (h2 : storeMem env.footnotes sp.data = false) :
    insertFragStep env base temp fs sp
      = { doc := insertText (insertText fs.doc (slice temp fs.start sp.pos) fs.cFmt)
            "[ERR]".toList fs.cFmt,
          notes := fs.notes, cFmt := fs.cFmt, start := sp.pos } := by
  obtain ⟨d, n, c, s⟩ := fs
  simp [insertFragStep, fnoteInsert, h1, h2]

/-- C6 (witness): instantiation at the unknown key `zz`. -/
theorem c6_witness :
    (⟨2, TextFmt.FNOTE, "zz"⟩ : Span).fmt = TextFmt.FNOTE ∧
    storeMem envA.footnotes "zz" = false ∧
    insertFragStep envA {} "ab".toList ⟨[⟨{}, []⟩], [], {}, 0⟩
        ⟨2, TextFmt.FNOTE, "zz"⟩
      = { doc := insertText (insertText [⟨{}, []⟩] (slice "ab".toList 0 2)
            ({} : CharFormat)) "[ERR]".toList {},
          notes := [], cFmt := {}, start := 2 } :=
  ⟨rfl, by decide,
   c6_theorem envA {} "ab".toList ⟨[⟨{}, []⟩], [], {}, 0⟩
     ⟨2, TextFmt.FNOTE, "zz"⟩ rfl (by decide)⟩

/-- C7: a heading with ordinal `nHead ≥ 0` carries an anchor named
`<handle>:T` followed by the ordinal zero-padded to 4 digits (exactly 4
characters whenever the ordinal is at most 9999); ordinal `-1` leaves
the anchor fields exactly as in the base character format (no anchor). -/
theorem c7_theorem (env : Env) (st : ConvState) (hType : BlockTyp)
    (nHead : Int) (rFmt : BlockFormat) :
    (0 ≤ nHead →
      (genHeadStyle env st hType nHead rFmt).2.anchor = true ∧
      (genHeadStyle env st hType nHead rFmt).2.anchorNames
        = [env.handle ++ ":T" ++ String.mk (pad4 nHead.toNat)] ∧
      (nHead ≤ 9999 → (pad4 nHead.toNat).length = 4)) ∧
    (nHead = -1 →
      (genHeadStyle env st hType nHead rFmt).2.anchor = st.charFmt.anchor ∧
      (genHeadStyle env st hType nHead rFmt).2.anchorNames
        = st.charFmt.anchorNames) := by
  constructor
  · intro h
    have hge : nHead ≥ 0 := h
    refine ⟨by simp [genHeadStyle, hge], by simp [genHeadStyle, hge], ?_⟩
    intro hle
    have hlt : nHead.toNat < 10 ^ 4 := by
      have : nHead.toNat ≤ 9999 := by omega
      omega
    have hlen : (natStr nHead.toNat).length ≤ 4 :=
      natStr_length_le 4 nHead.toNat (by norm_num) hlt
    simp only [pad4, List.length_append, List.length_replicate]
    omega
  · intro h
    subst h
    constructor <;> norm_num [genHeadStyle]

/-- C7 (witness): ordinals 3 and -1 on the concrete environment. -/
theorem c7_witness :
    (0 ≤ (3 : Int) ∧
      ((genHeadStyle envA st0A BlockTyp.HEAD1 3 st0A.blockFmt).2.anchor = true ∧
       (genHeadStyle envA st0A BlockTyp.HEAD1 3 st0A.blockFmt).2.anchorNames
         = [envA.handle ++ ":T" ++ String.mk (pad4 (3 : Int).toNat)] ∧
       ((3 : Int) ≤ 9999 → (pad4 (3 : Int).toNat).length = 4))) ∧
    ((-1 : Int) = -1 ∧
      ((genHeadStyle envA st0A BlockTyp.HEAD4 (-1) st0A.blockFmt).2.anchor
         = st0A.charFmt.anchor ∧
       (genHeadStyle envA st0A BlockTyp.HEAD4 (-1) st0A.blockFmt).2.anchorNames
         = st0A.charFmt.anchorNames)) :=
  ⟨⟨by decide,
    (c7_theorem envA st0A BlockTyp.HEAD1 3 st0A.blockFmt).1 (by decide)⟩,
   ⟨rfl, (c7_theorem envA st0A BlockTyp.HEAD4 (-1) st0A.blockFmt).2 rfl⟩⟩

/-- C8: a color-begin span with a class payload outside the class-color
mapping leaves the running character format (in particular its
foreground) entirely unchanged and raises nothing, while a color-end
span always resets the foreground to the theme text color. -/
theorem c8_theorem (env : Env) (c c2 : CharFormat) (d d2 : String)
    (h : env.classes d = none) :
    applySpanFmt env c TextFmt.COL_B d = c ∧
    (applySpanFmt env c2 TextFmt.COL_E d2).foreground = env.themeText := by
  constructor
  · simp [applySpanFmt, h]
  · simp [applySpanFmt]

/-- C8 (witness): the unknown class `zzz`. -/
theorem c8_witness :
    envA.classes "zzz" = none ∧
    (applySpanFmt envA {} TextFmt.COL_B "zzz" = {} ∧
     (applySpanFmt envA {} TextFmt.COL_E "x").foreground = envA.themeText) :=
  ⟨by decide, c8_theorem envA {} {} "zzz" "x" (by decide)⟩

/-- C9: for every environment, converting an empty block sequence right
after initialization leaves the output document as a single empty
paragraph, and the footnote-append pass succeeds and adds nothing (the
registry is empty, so its guard returns the state unchanged). -/
theorem c9_theorem (env : Env) :
    appendFootnotes env (doConvert env (initDocument env initState) [])
      = some (doConvert env (initDocument env initState) []) ∧
    (doConvert env (initDocument env initState) []).document = [⟨{}, []⟩] ∧
    (doConvert env (initDocument env initState) []).usedNotes = [] :=
  ⟨rfl, rfl, rfl⟩

/-- C10: calling `doConvert` while `_init` is false returns immediately
and leaves the entire converter state unchanged. -/
theorem c10_theorem (env : Env) (st : ConvState) (blocks : List ContentBlock)
    (h : st.init = false) :
    doConvert env st blocks = st := by
  simp [doConvert, h]

/-- C10 (witness): a freshly constructed instance has `_init = false`,
and converting on it is a no-op. -/
theorem c10_witness :
    initState.init = false ∧ doConvert envA initState [blkHello] = initState :=
  ⟨rfl, c10_theorem envA initState [blkHello] rfl⟩

end ToQDoc
